import Mathlib

/-!
The agit synchroniser: a verification development for `main.go`.

A shallow embedding of the repository synchroniser: the URL parser
(`IsGitURL`, `GetGitRepo`), the branch checker (`ExistsBranch`), the
clone-or-pull decision (`FetchRepo`, `FetchProject`), the paginated group
and project enumeration (`GetAllGroup`, `GetSubGroups`,
`GetProjectsByGroup`) and the orchestration in `main`.

Conventions of the embedding.

* A Go `string` is a list of runes, `GoString := List Char`.
* A Go `error` value is its message, `GoError := String`.
* A function returning `(T, error)` returns an `Outcome T`; `Outcome.crash`
  stands for a run-time panic or `log.Fatal`, both of which end the process.
* Library functions whose tables are outside the repository
  (`unicode.ToLower`, `filepath.Join`) are fields of `Lib`.
* The git sub-processes, `os.Stat`, `os.Getwd` and the hosting API are
  answered by a `World σ`; every answer may depend on and change the state
  `σ`.  Each issued command or request is appended to a trace.
* Console output (`color.*`, `fmt.Print*`) is not modelled.
-/

namespace Agit

/-! ## Strings -/

/-- A Go string, as its sequence of runes. -/
abbrev GoString := List Char

/-- A Go `error`, as its message. -/
abbrev GoError := String

/-- Result of a Go function that returns `(T, error)`, or that may end the process. -/
inductive Outcome (α : Type) where
  | ok (a : α)
  | error (e : GoError)
  | crash
  deriving DecidableEq, Repr

/-- Library functions taken as parameters: `toLower` is `unicode.ToLower` on one rune
(`strings.ToLower` maps it over the string), `join` is `filepath.Join`. -/
structure Lib where
  toLower : Char → Char
  join : List GoString → GoString

/-- The `strings.ToLower` of Go: `unicode.ToLower` applied to every rune. -/
def ToLower (L : Lib) (s : GoString) : GoString := s.map L.toLower

/-- The `strings.HasPrefix` of Go. -/
def HasPrefix (s pre : GoString) : Bool := pre.isPrefixOf s

/-- The `strings.HasSuffix` of Go. -/
def HasSuffix (s suf : GoString) : Bool := suf.isSuffixOf s

/-- The `unicode.IsSpace` of Go: the runes with the White_Space property. -/
def isSpace (c : Char) : Bool :=
  let n := c.toNat
  (0x09 ≤ n && n ≤ 0x0D) || n == 0x20 || n == 0x85 || n == 0xA0 || n == 0x1680 ||
  (0x2000 ≤ n && n ≤ 0x200A) || n == 0x2028 || n == 0x2029 || n == 0x202F ||
  n == 0x205F || n == 0x3000

/-- The `strings.TrimSpace` of Go: leading and trailing white space removed. -/
def TrimSpace (s : GoString) : GoString :=
  ((s.dropWhile isSpace).reverse.dropWhile isSpace).reverse

/-! ## Regular expressions

The fragment of Go's `regexp` syntax used by `GetGitRepo`, with the
leftmost-first (backtracking order) matching of `regexp`: a greedy
operator tries the longer alternative first, a lazy one the shorter.
`.` matches every rune but the newline; `^` and `$` match at the two ends
of the text only (no flags are set). -/

/-- Instructions of a compiled pattern. -/
inductive Tok where
  | bol
  | eol
  | chr (c : Char)
  | opt (c : Char)
  | star
  | lazy
  | gopen (i : Nat)
  | gclose (i : Nat)
  deriving DecidableEq, Repr

/-- Runes that are operators of the pattern syntax when not escaped. -/
def isMeta (c : Char) : Bool :=
  c == '.' || c == '*' || c == '+' || c == '?' || c == '[' || c == ']' ||
  c == '|' || c == '\x7b' || c == '\x7d' || c == '\\' || c == '(' || c == ')' ||
  c == '^' || c == '$'

/-- Parser of the pattern text: `next` is the number of the next group, `stack` the
groups still open.  Syntax outside the fragment yields `none`. -/
def compileAux : List Char → Nat → List Nat → Option (List Tok)
  | [], _, [] => some []
  | [], _, _ :: _ => none
  | '^' :: r, n, st => (compileAux r n st).map (Tok.bol :: ·)
  | '$' :: r, n, st => (compileAux r n st).map (Tok.eol :: ·)
  | '(' :: r, n, st => (compileAux r (n + 1) (n :: st)).map (Tok.gopen n :: ·)
  | ')' :: _, _, [] => none
  | ')' :: r, n, i :: st => (compileAux r n st).map (Tok.gclose i :: ·)
  | '.' :: '*' :: '?' :: r, n, st => (compileAux r n st).map (Tok.lazy :: ·)
  | '.' :: '*' :: r, n, st => (compileAux r n st).map (Tok.star :: ·)
  | '\\' :: c :: '?' :: r, n, st =>
      if c.isAlphanum then none else (compileAux r n st).map (Tok.opt c :: ·)
  | '\\' :: c :: r, n, st =>
      if c.isAlphanum then none else (compileAux r n st).map (Tok.chr c :: ·)
  | c :: '?' :: r, n, st =>
      if isMeta c then none else (compileAux r n st).map (Tok.opt c :: ·)
  | c :: r, n, st =>
      if isMeta c then none else (compileAux r n st).map (Tok.chr c :: ·)

/-- Compiled form of a pattern; groups are numbered from 1 in order of their `(`. -/
def compile (pattern : GoString) : Option (List Tok) := compileAux pattern 1 []

/-- Capture registers: for a group that is open the text that was left when it opened,
for a closed group the text it captured. -/
structure Caps where
  opened : List (Nat × GoString)
  closed : List (Nat × GoString)
  deriving DecidableEq, Repr

/-- Greedy `.*` followed by the continuation `k`: the longest run is tried first. -/
def starGreedy (k : GoString → Caps → Option Caps) : GoString → Caps → Option Caps
  | [], m => k [] m
  | x :: xs, m =>
      if x = '\n' then k (x :: xs) m
      else
        match starGreedy k xs m with
        | some r => some r
        | none => k (x :: xs) m

/-- Lazy `.*?` followed by the continuation `k`: the shortest run is tried first. -/
def starLazy (k : GoString → Caps → Option Caps) : GoString → Caps → Option Caps
  | [], m => k [] m
  | x :: xs, m =>
      match k (x :: xs) m with
      | some r => some r
      | none => if x = '\n' then none else starLazy k xs m

/-- Backtracking matcher: `n` is the length of the whole text, `s` what is left of it. -/
def matchT (n : Nat) : List Tok → GoString → Caps → Option Caps
  | [], _, m => some m
  | .bol :: ts, s, m => if s.length = n then matchT n ts s m else none
  | .eol :: ts, s, m => if s.length = 0 then matchT n ts s m else none
  | .chr c :: ts, s, m =>
      match s with
      | [] => none
      | x :: xs => if x = c then matchT n ts xs m else none
  | .opt c :: ts, s, m =>
      match s with
      | [] => matchT n ts [] m
      | x :: xs =>
          if x = c then
            match matchT n ts xs m with
            | some r => some r
            | none => matchT n ts (x :: xs) m
          else matchT n ts (x :: xs) m
  | .star :: ts, s, m => starGreedy (matchT n ts) s m
  | .lazy :: ts, s, m => starLazy (matchT n ts) s m
  | .gopen i :: ts, s, m => matchT n ts s { m with opened := (i, s) :: m.opened }
  | .gclose i :: ts, s, m =>
      match m.opened.lookup i with
      | none => none
      | some o =>
          matchT n ts s { m with closed := (i, o.take (o.length - s.length)) :: m.closed }

/-- Leftmost match: the start offsets are tried from left to right. -/
def findFrom (n : Nat) (toks : List Tok) : GoString → Option Caps
  | [] => matchT n toks [] ⟨[], []⟩
  | x :: xs =>
      match matchT n toks (x :: xs) ⟨[], []⟩ with
      | some m => some m
      | none => findFrom n toks xs

/-- Number of capture groups of a compiled pattern. -/
def numGroups (re : List Tok) : Nat :=
  (re.filter fun t => match t with | .gopen _ => true | _ => false).length

/-- The `(*Regexp).FindStringSubmatch` of Go: the whole match followed by the text of
every group, or the nil slice (here `[]`) when there is no match. -/
def FindStringSubmatch (re : List Tok) (s : GoString) : List GoString :=
  match findFrom s.length (Tok.gopen 0 :: re ++ [Tok.gclose 0]) s with
  | none => []
  | some m => (List.range (numGroups re + 1)).map fun i => (m.closed.lookup i).getD []

/-! ## URL parser -/

/-- Parsed repository URL (`type Repo struct`). -/
structure Repo where
  Url : GoString
  Domain : GoString
  GroupPath : GoString
  RepoPath : GoString
  deriving DecidableEq, Repr

/-- Source: `func IsGitURL(url string) bool`. -/
def IsGitURL (L : Lib) (url : GoString) : Bool :=
  let gitUrl := ToLower L url
  if !HasPrefix gitUrl "git@".toList &&
      !HasPrefix gitUrl "http://".toList &&
      !HasPrefix gitUrl "https://".toList &&
      !HasSuffix gitUrl ".git".toList then
    false
  else
    true

/-- The pattern for `http://` and `https://` URLs. -/
def rexHttp : GoString := "^(https?:\\/\\/.*?)(/.*)/(.*)\\.git$".toList

/-- The pattern for `git@` URLs. -/
def rexSsh : GoString := "^git@(.*):(.*)/(.*)\\.git$".toList

/-- Source: `func GetGitRepo(url string) (*Repo, error)`.  Indexing the slice of matches
beyond its length is a run-time panic, as is `regexp.MustCompile` on a bad pattern. -/
def GetGitRepo (L : Lib) (url : GoString) : Outcome Repo :=
  if !IsGitURL L url then
    .error "is not git url"
  else
    let rex := if HasPrefix (ToLower L url) "git@".toList then rexSsh else rexHttp
    match compile rex with
    | none => .crash
    | some re =>
        let submatches := FindStringSubmatch re url
        match submatches[3]?, submatches[2]?, submatches[1]? with
        | some repoName, some groupName, some domain =>
            .ok { Domain := domain, GroupPath := groupName, RepoPath := repoName, Url := url }
        | _, _, _ => .crash

/-- An instance of `Lib`: lower-casing of the ASCII letters, and the joining of the
non-empty elements with `/`, which is what `filepath.Join` does on elements that need no
cleaning. -/
def asciiLib : Lib :=
  { toLower := Char.toLower
    join := fun parts => ['/'].intercalate (parts.filter fun part => part ≠ []) }

/-! ## The outside world -/

/-- Configuration file contents (`type Config struct`). -/
structure Config where
  Url : GoString
  Token : GoString
  Path : GoString
  Groups : List GoString
  Repos : List GoString
  RepoIgnore : List GoString
  GroupIgnore : List GoString
  deriving DecidableEq, Repr

/-- The fields of `gitlab.Group` that the program reads or writes. -/
structure Group where
  ID : Int
  Name : GoString
  Path : GoString
  FullPath : GoString
  deriving DecidableEq, Repr

/-- The fields of `gitlab.Project` that the program reads. -/
structure Project where
  Path : GoString
  PathWithNamespace : GoString
  SSHURLToRepo : GoString
  deriving DecidableEq, Repr

/-- A group identifier passed as `interface{}`: a numeric ID or a path. -/
inductive Gid where
  | id (n : Int)
  | path (p : GoString)
  deriving DecidableEq, Repr

/-- The git sub-processes the program starts. -/
inductive GitCmd where
  /-- Runs `git rev-parse --abbrev-ref HEAD` in `dir`. -/
  | revParse (dir : GoString)
  /-- Runs `git ls-remote --heads origin <branch>` in `dir`. -/
  | lsRemote (branch dir : GoString)
  /-- Runs `git clone --progress <url> <dir>`. -/
  | clone (url dir : GoString)
  /-- Runs `git pull` in `dir`. -/
  | pull (dir : GoString)
  /-- Runs `git checkout <branch>` in `dir`. -/
  | checkout (dir branch : GoString)
  deriving DecidableEq, Repr

/-- The requests sent to the hosting API; every one asks for 100 items per page and a
minimum access level of 30. -/
inductive ApiReq where
  | listGroups (page : Nat)
  | listSubGroups (gid : Gid) (page : Nat)
  | listGroupProjects (gid : Gid) (page : Nat)
  deriving DecidableEq, Repr

/-- What the program does to the outside: a sub-process or an API request. -/
inductive Event where
  | git (c : GitCmd)
  | api (r : ApiReq)
  deriving DecidableEq, Repr

/-- The environment: how sub-processes, the file system and the hosting API answer in a
state `σ`, and the state they leave.  `run` gives the standard output of a finished
process or its error; `stat` tells whether `os.Stat` succeeds. -/
structure World (σ : Type) where
  run : GitCmd → σ → Except GoError GoString × σ
  stat : GoString → σ → Bool
  getwd : σ → Except GoError GoString
  listGroups : Nat → σ → Except GoError (List Group) × σ
  listSubGroups : Gid → Nat → σ → Except GoError (List Group) × σ
  listGroupProjects : Gid → Nat → σ → Except GoError (List Project) × σ

/-- Execution state: the state of the world and the events issued so far. -/
structure St (σ : Type) where
  world : σ
  trace : List Event
  deriving DecidableEq

/-- State after issuing the event `e`, the world having moved to `w`. -/
def St.emit {σ : Type} (st : St σ) (e : Event) (w : σ) : St σ :=
  { world := w, trace := st.trace ++ [e] }

/-! ## Git commands -/

/-- Source: `func GitCommandRun(cmd *exec.Cmd) error`; `none` is the nil error. -/
def GitCommandRun {σ : Type} (W : World σ) (cmd : GitCmd) (st : St σ) :
    Option GoError × St σ :=
  match W.run cmd st.world with
  | (.error err, w) => (some err, st.emit (.git cmd) w)
  | (.ok _, w) => (none, st.emit (.git cmd) w)

/-- Source: `func GitCommandRunOutput(cmd *exec.Cmd) (string, error)`. -/
def GitCommandRunOutput {σ : Type} (W : World σ) (cmd : GitCmd) (st : St σ) :
    Except GoError GoString × St σ :=
  match W.run cmd st.world with
  | (.error err, w) => (.error err, st.emit (.git cmd) w)
  | (.ok output, w) => (.ok (TrimSpace output), st.emit (.git cmd) w)

/-- Source: `func GetRemoteBranch(currentBranch, dirPath string) (string, error)`. -/
def GetRemoteBranch {σ : Type} (W : World σ) (currentBranch dirPath : GoString)
    (st : St σ) : Except GoError GoString × St σ :=
  GitCommandRunOutput W (.lsRemote currentBranch dirPath) st

/-- Source: `func GetCurrentBranch(dirPath string) (string, error)`. -/
def GetCurrentBranch {σ : Type} (W : World σ) (dirPath : GoString) (st : St σ) :
    Except GoError GoString × St σ :=
  GitCommandRunOutput W (.revParse dirPath) st

/-- Source: `func ExistsBranch(dirPath string) (bool, string, error)`. -/
def ExistsBranch {σ : Type} (W : World σ) (dirPath : GoString) (st : St σ) :
    Except GoError (Bool × GoString) × St σ :=
  match GetCurrentBranch W dirPath st with
  | (.error err, st1) => (.error err, st1)
  | (.ok currentBranch, st1) =>
      match GetRemoteBranch W currentBranch dirPath st1 with
      | (.error err, st2) => (.error err, st2)
      | (.ok branch, st2) =>
          if HasSuffix branch ('/' :: currentBranch) then (.ok (true, currentBranch), st2)
          else (.ok (false, currentBranch), st2)

/-- Source: `func GitClone(url, dirPath string)`; a failure is only logged. -/
def GitClone {σ : Type} (W : World σ) (url dirPath : GoString) (st : St σ) : St σ :=
  (GitCommandRun W (.clone url dirPath) st).2

/-- Source: `func GitPull(dirPath string)`; a failure is only logged. -/
def GitPull {σ : Type} (W : World σ) (dirPath : GoString) (st : St σ) : St σ :=
  (GitCommandRun W (.pull dirPath) st).2

/-- Source: `func GitSwitchBranch(dirPath, branchName string) error`. -/
def GitSwitchBranch {σ : Type} (W : World σ) (dirPath branchName : GoString) (st : St σ) :
    Option GoError × St σ :=
  GitCommandRun W (.checkout dirPath branchName) st

/-- Source: `func GetCurrentPath() string`; `none` is the `log.Fatal` exit. -/
def GetCurrentPath {σ : Type} (W : World σ) (st : St σ) : Option GoString :=
  match W.getwd st.world with
  | .error _ => none
  | .ok dir => some dir

/-- Source: `func GetWorkPath() string`; `none` is the `log.Fatal` exit. -/
def GetWorkPath {σ : Type} (W : World σ) (config : Config) (st : St σ) : Option GoString :=
  let dir := config.Path
  if (TrimSpace dir).length = 0 then GetCurrentPath W st else some dir

/-- Source: `func IsGitRepo(dir string) bool`. -/
def IsGitRepo {σ : Type} (L : Lib) (W : World σ) (dir : GoString) (st : St σ) : Bool :=
  let gitDir := L.join [dir, ".git".toList]
  W.stat gitDir st.world

/-! ## Repository sync -/

/-- Source: `func FetchRepo(url string) error`. -/
def FetchRepo {σ : Type} (L : Lib) (W : World σ) (config : Config) (url : GoString)
    (st : St σ) : Outcome Unit × St σ :=
  match GetGitRepo L url with
  | .error err => (.error err, st)
  | .crash => (.crash, st)
  | .ok repo =>
      match GetWorkPath W config st with
      | none => (.crash, st)
      | some root =>
          let workPath := L.join [root, repo.GroupPath, repo.RepoPath]
          if IsGitRepo L W workPath st then
            match ExistsBranch W workPath st with
            | (.error err, st1) => (.error err, st1)
            | (.ok (existsBranch, _), st1) =>
                if !existsBranch then
                  match GitSwitchBranch W workPath "master".toList st1 with
                  | (some err, st2) => (.error err, st2)
                  | (none, st2) => (.ok (), GitPull W workPath st2)
                else (.ok (), GitPull W workPath st1)
          else (.ok (), GitClone W repo.Url workPath st)

/-- Source: `func FetchProject(project *gitlab.Project) error`. -/
def FetchProject {σ : Type} (L : Lib) (W : World σ) (config : Config) (project : Project)
    (st : St σ) : Outcome Unit × St σ :=
  match GetWorkPath W config st with
  | none => (.crash, st)
  | some root =>
      let workPath := L.join [root, project.PathWithNamespace]
      if IsGitRepo L W workPath st then
        match ExistsBranch W workPath st with
        | (.error err, st1) => (.error err, st1)
        | (.ok (existsBranch, _), st1) =>
            if !existsBranch then
              match GitSwitchBranch W workPath "master".toList st1 with
              | (some err, st2) => (.error err, st2)
              | (none, st2) => (.ok (), GitPull W workPath st2)
            else (.ok (), GitPull W workPath st1)
      else (.ok (), GitClone W project.SSHURLToRepo workPath st)

/-! ## Group and project enumeration

The listing loops have no bound in the source; the embedding gives them
fuel and answers `none` when it runs out.  In `GetSubGroups` one unit of
fuel is spent per request and per level of recursion, in
`GetProjectsByGroup` one unit per request. -/

/-- Source: `func contains(s []string, e string) bool`. -/
def contains : List GoString → GoString → Bool
  | [], _ => false
  | v :: s, e => if v = e then true else contains s e

/-- Source: `func filterGroup(repos []*gitlab.Group, f func(r *gitlab.Group) bool)`. -/
def filterGroup (repos : List Group) (f : Group → Bool) : List Group :=
  repos.foldl (fun result r => if f r then result ++ [r] else result) []

/-- Source: `func filterProject(repos []*gitlab.Project, f func(r *gitlab.Project) bool)`. -/
def filterProject (repos : List Project) (f : Project → Bool) : List Project :=
  repos.foldl (fun result r => if f r then result ++ [r] else result) []

/-- Source: `func filterGroups(gro []*gitlab.Group) []*gitlab.Group`. -/
def filterGroups (config : Config) (gro : List Group) : List Group :=
  if config.GroupIgnore.length > 0 then
    filterGroup gro fun r => !contains config.GroupIgnore r.FullPath
  else gro

/-- The inner `for _, gs := range g` of `GetSubGroups`: an error of a recursive call is
returned at once.  `recur` is `GetSubGroups` itself. -/
def subGroupsChildren {σ : Type}
    (recur : Gid → St σ → Option (Outcome (List Group) × St σ)) :
    List Group → List Group → St σ → Option (Outcome (List Group) × St σ)
  | [], gro, st => some (.ok gro, st)
  | gs :: rest, gro, st =>
      match recur (.id gs.ID) st with
      | none => none
      | some (.ok gss, st1) => subGroupsChildren recur rest (gro ++ gss) st1
      | some (.error err, st1) => some (.error err, st1)
      | some (.crash, st1) => some (.crash, st1)

/-- The `for` loop of `GetSubGroups`, at page `page` with `gro` accumulated so far.  The
page is filtered by `filterGroups` before it is appended, before the recursion into its
groups and before its length is compared with 50. -/
def subGroupsLoop {σ : Type} (W : World σ) (config : Config) :
    Nat → Gid → Nat → List Group → St σ → Option (Outcome (List Group) × St σ)
  | 0, _, _, _, _ => none
  | fuel + 1, gid, page, gro, st =>
      match W.listSubGroups gid page st.world with
      | (.error err, w) => some (.error err, st.emit (.api (.listSubGroups gid page)) w)
      | (.ok g, w) =>
          let st1 := st.emit (.api (.listSubGroups gid page)) w
          let g := filterGroups config g
          match subGroupsChildren (fun gid1 s => subGroupsLoop W config fuel gid1 1 [] s)
              g (gro ++ g) st1 with
          | none => none
          | some (.ok gro2, st2) =>
              if g.length < 50 then some (.ok gro2, st2)
              else subGroupsLoop W config fuel gid (page + 1) gro2 st2
          | some (.error err, st2) => some (.error err, st2)
          | some (.crash, st2) => some (.crash, st2)

/-- Source: `func GetSubGroups(gid interface{}) ([]*gitlab.Group, error)`. -/
def GetSubGroups {σ : Type} (W : World σ) (config : Config) (fuel : Nat) (gid : Gid)
    (st : St σ) : Option (Outcome (List Group) × St σ) :=
  subGroupsLoop W config fuel gid 1 [] st

/-- The `for i, value := range values` of `GetConfigGroups`: an error of `GetSubGroups`
is logged and nothing is appended for that value. -/
def configGroupsLoop {σ : Type} (W : World σ) (config : Config) (fuel : Nat) :
    List GoString → List Group → St σ → Option (Outcome (List Group) × St σ)
  | [], groups, st => some (.ok groups, st)
  | value :: rest, groups, st =>
      match GetSubGroups W config fuel (.path value) st with
      | none => none
      | some (.ok subGroups, st1) => configGroupsLoop W config fuel rest (groups ++ subGroups) st1
      | some (.error _, st1) => configGroupsLoop W config fuel rest groups st1
      | some (.crash, st1) => some (.crash, st1)

/-- Source: `func GetConfigGroups() ([]*gitlab.Group, error, bool)`; the error is always
nil and the result is the pair of the groups and `done`.  The slice starts with one slot
per configured value, slot `i` being filled with the placeholder of value `i`; the
subgroups are appended after these slots. -/
def GetConfigGroups {σ : Type} (W : World σ) (config : Config) (fuel : Nat) (st : St σ) :
    Option (Outcome (List Group × Bool) × St σ) :=
  let values := config.Groups
  if values.length > 0 then
    let groups := values.map fun value =>
      ({ ID := 0, Name := value, FullPath := value, Path := value } : Group)
    match configGroupsLoop W config fuel values groups st with
    | none => none
    | some (.ok groups, st1) => some (.ok (groups, true), st1)
    | some (.error err, st1) => some (.error err, st1)
    | some (.crash, st1) => some (.crash, st1)
  else some (.ok ([], false), st)

/-- The inner `for _, gs := range g` of `GetAllGroup`: an error of `GetSubGroups` is
logged and nothing is appended for that group. -/
def allGroupsChildren {σ : Type} (W : World σ) (config : Config) (fuel : Nat) :
    List Group → List Group → St σ → Option (Outcome (List Group) × St σ)
  | [], gro, st => some (.ok gro, st)
  | gs :: rest, gro, st =>
      match GetSubGroups W config fuel (.id gs.ID) st with
      | none => none
      | some (.ok gss, st1) => allGroupsChildren W config fuel rest (gro ++ gss) st1
      | some (.error _, st1) => allGroupsChildren W config fuel rest gro st1
      | some (.crash, st1) => some (.crash, st1)

/-- The `for` loop of `GetAllGroup`, at page `page` with `gro` accumulated so far. -/
def allGroupsLoop {σ : Type} (W : World σ) (config : Config) :
    Nat → Nat → List Group → St σ → Option (Outcome (List Group) × St σ)
  | 0, _, _, _ => none
  | fuel + 1, page, gro, st =>
      match W.listGroups page st.world with
      | (.error err, w) => some (.error err, st.emit (.api (.listGroups page)) w)
      | (.ok g, w) =>
          let st1 := st.emit (.api (.listGroups page)) w
          match allGroupsChildren W config fuel g (gro ++ g) st1 with
          | none => none
          | some (.ok gro2, st2) =>
              if g.length < 50 then some (.ok gro2, st2)
              else allGroupsLoop W config fuel (page + 1) gro2 st2
          | some (.error err, st2) => some (.error err, st2)
          | some (.crash, st2) => some (.crash, st2)

/-- Source: `func GetAllGroup() ([]*gitlab.Group, error)`. -/
def GetAllGroup {σ : Type} (W : World σ) (config : Config) (fuel : Nat) (st : St σ) :
    Option (Outcome (List Group) × St σ) :=
  match GetConfigGroups W config fuel st with
  | none => none
  | some (.error err, st1) => some (.error err, st1)
  | some (.crash, st1) => some (.crash, st1)
  | some (.ok (groups, done), st1) =>
      if done then some (.ok groups, st1)
      else
        match allGroupsLoop W config fuel 1 [] st1 with
        | none => none
        | some (.ok gro, st2) => some (.ok (filterGroups config gro), st2)
        | some (.error err, st2) => some (.error err, st2)
        | some (.crash, st2) => some (.crash, st2)

/-- The `for` loop of `GetProjectsByGroup`, at page `page` with `pro` accumulated. -/
def projectsLoop {σ : Type} (W : World σ) :
    Nat → Gid → Nat → List Project → St σ → Option (Outcome (List Project) × St σ)
  | 0, _, _, _, _ => none
  | fuel + 1, gid, page, pro, st =>
      match W.listGroupProjects gid page st.world with
      | (.error err, w) => some (.error err, st.emit (.api (.listGroupProjects gid page)) w)
      | (.ok g, w) =>
          let st1 := st.emit (.api (.listGroupProjects gid page)) w
          let pro := pro ++ g
          if g.length < 50 then some (.ok pro, st1)
          else projectsLoop W fuel gid (page + 1) pro st1

/-- Source: `func GetProjectsByGroup(gid interface{}) ([]*gitlab.Project, error)`. -/
def GetProjectsByGroup {σ : Type} (W : World σ) (config : Config) (fuel : Nat) (gid : Gid)
    (st : St σ) : Option (Outcome (List Project) × St σ) :=
  match projectsLoop W fuel gid 1 [] st with
  | none => none
  | some (.error err, st1) => some (.error err, st1)
  | some (.crash, st1) => some (.crash, st1)
  | some (.ok pro, st1) =>
      if config.RepoIgnore.length > 0 then
        some (.ok (filterProject pro fun r => !contains config.RepoIgnore r.SSHURLToRepo), st1)
      else some (.ok pro, st1)

/-! ## Orchestration -/

/-- The `for _, project := range projects` of `FetchGroup`: an error of `FetchProject`
is skipped. -/
def fetchProjects {σ : Type} (L : Lib) (W : World σ) (config : Config) :
    List Project → St σ → Outcome Unit × St σ
  | [], st => (.ok (), st)
  | project :: rest, st =>
      match FetchProject L W config project st with
      | (.crash, st1) => (.crash, st1)
      | (_, st1) => fetchProjects L W config rest st1

/-- Source: `func FetchGroup(group *gitlab.Group)`; the error of `GetProjectsByGroup` is
dropped, its nil slice being an empty list of projects. -/
def FetchGroup {σ : Type} (L : Lib) (W : World σ) (config : Config) (fuel : Nat)
    (group : Group) (st : St σ) : Option (Outcome Unit × St σ) :=
  match GetProjectsByGroup W config fuel (.path group.FullPath) st with
  | none => none
  | some (.crash, st1) => some (.crash, st1)
  | some (.error _, st1) => some (fetchProjects L W config [] st1)
  | some (.ok projects, st1) => some (fetchProjects L W config projects st1)

/-- The `for _, repoUrl := range config.Repos` of `main`: an error of `FetchRepo` makes
`main` return, which is reported as `Outcome.error`. -/
def fetchRepos {σ : Type} (L : Lib) (W : World σ) (config : Config) :
    List GoString → St σ → Outcome Unit × St σ
  | [], st => (.ok (), st)
  | repoUrl :: rest, st =>
      match FetchRepo L W config repoUrl st with
      | (.ok _, st1) => fetchRepos L W config rest st1
      | (.error errFetch, st1) => (.error errFetch, st1)
      | (.crash, st1) => (.crash, st1)

/-- The `for _, group := range groups` of `main`. -/
def fetchGroups {σ : Type} (L : Lib) (W : World σ) (config : Config) (fuel : Nat) :
    List Group → St σ → Option (Outcome Unit × St σ)
  | [], st => some (.ok (), st)
  | group :: rest, st =>
      match FetchGroup L W config fuel group st with
      | none => none
      | some (.crash, st1) => some (.crash, st1)
      | some (_, st1) => fetchGroups L W config fuel rest st1

/-- Source: `func main()`.  The three flags are the globals `isOutputCommand`,
`initSuccess` and `client != nil` as `init` left them.  The outcome is `ok` when `main`
returns, whether early or after the final banner. -/
def main {σ : Type} (L : Lib) (W : World σ) (config : Config)
    (isOutputCommand initSuccess hasClient : Bool) (fuel : Nat) (st : St σ) :
    Option (Outcome Unit × St σ) :=
  if isOutputCommand || !initSuccess then some (.ok (), st)
  else
    match fetchRepos L W config config.Repos st with
    | (.crash, st1) => some (.crash, st1)
    | (.error _, st1) => some (.ok (), st1)
    | (.ok _, st1) =>
        if hasClient then
          match GetAllGroup W config fuel st1 with
          | none => none
          | some (.crash, st2) => some (.crash, st2)
          | some (.error _, st2) => fetchGroups L W config fuel [] st2
          | some (.ok groups, st2) => fetchGroups L W config fuel groups st2
        else some (.ok (), st1)

/-! ## Vocabulary of the claims, and concrete worlds -/

/-- Compiled form of `rexSsh`. -/
def sshToks : List Tok :=
  [.bol, .chr 'g', .chr 'i', .chr 't', .chr '@', .gopen 1, .star, .gclose 1, .chr ':',
   .gopen 2, .star, .gclose 2, .chr '/', .gopen 3, .star, .gclose 3,
   .chr '.', .chr 'g', .chr 'i', .chr 't', .eol]

/-- Compiled form of `rexHttp`. -/
def httpToks : List Tok :=
  [.bol, .gopen 1, .chr 'h', .chr 't', .chr 't', .chr 'p', .opt 's', .chr ':', .chr '/',
   .chr '/', .lazy, .gclose 1, .gopen 2, .chr '/', .star, .gclose 2, .chr '/', .gopen 3,
   .star, .gclose 3, .chr '.', .chr 'g', .chr 'i', .chr 't', .eol]

/-- A rune-lowering function that agrees with Go's `unicode.ToLower` on ASCII: the
letters `A` to `Z` go to `a` to `z` and every other ASCII rune is unchanged. -/
def Lib.AsciiFaithful (L : Lib) : Prop :=
  ∀ c : Char, c.toNat < 128 → L.toLower c = c.toLower

/-- A path segment of the claims on URLs: non-empty, without `/`, `:` or newline. -/
def IsSegment (s : GoString) : Prop :=
  s ≠ [] ∧ ∀ c ∈ s, c ≠ '/' ∧ c ≠ ':' ∧ c ≠ '\n'

/-- The condition under which a string is not a git URL: its lower-cased form has none of
the three prefixes and not the suffix. -/
def LacksGitMarks (L : Lib) (s : GoString) : Prop :=
  ¬ "git@".toList <+: ToLower L s ∧ ¬ "http://".toList <+: ToLower L s ∧
  ¬ "https://".toList <+: ToLower L s ∧ ¬ ".git".toList <:+ ToLower L s

/-- What C5 says of a sync of the working copy `workPath` that starts in `st` and ends
with `res`, when the current branch is `cur`, the remote listing of that branch is
`listing` and the two branch queries leave the world in `w2`: a checkout of `master` is
issued exactly when the listing does not end with `/cur`; with the branch on the remote
the only further command is a pull; without it the checkout comes before any pull, and a
failed checkout returns its error with no pull. -/
def SyncsExisting {σ : Type} (W : World σ) (workPath cur listing : GoString) (w2 : σ)
    (st : St σ) (res : Outcome Unit × St σ) : Prop :=
  let queries := [Event.git (.revParse workPath), Event.git (.lsRemote cur workPath)]
  let checkout := Event.git (.checkout workPath "master".toList)
  let pull := Event.git (.pull workPath)
  (checkout ∈ res.2.trace.drop st.trace.length ↔ ¬ ('/' :: cur) <:+ listing) ∧
  (('/' :: cur) <:+ listing →
    res.1 = .ok () ∧ res.2.trace = st.trace ++ queries ++ [pull]) ∧
  (¬ ('/' :: cur) <:+ listing →
    (∀ err, (W.run (.checkout workPath "master".toList) w2).1 = .error err →
      res.1 = .error err ∧ res.2.trace = st.trace ++ queries ++ [checkout]) ∧
    (∀ out, (W.run (.checkout workPath "master".toList) w2).1 = .ok out →
      res.1 = .ok () ∧ res.2.trace = st.trace ++ queries ++ [checkout, pull]))

/-- A world with one state whose answers are fixed: `hasGit` is the answer of `os.Stat`,
`branch` and `listing` are the outputs of the two branch queries, `checkoutOk` and
`cloneOk` tell whether a checkout and a clone succeed; a pull succeeds and the hosting
API has no groups and no projects. -/
def scriptedWorld (hasGit : Bool) (branch listing : GoString) (checkoutOk cloneOk : Bool) :
    World Unit :=
  { run := fun cmd w =>
      match cmd with
      | .revParse _ => (.ok branch, w)
      | .lsRemote _ _ => (.ok listing, w)
      | .clone _ _ => (if cloneOk then .ok [] else .error "exit status 128", w)
      | .pull _ => (.ok [], w)
      | .checkout _ _ => (if checkoutOk then .ok [] else .error "exit status 1", w)
    stat := fun _ _ => hasGit
    getwd := fun _ => .ok "/home/u".toList
    listGroups := fun _ w => (.ok [], w)
    listSubGroups := fun _ _ w => (.ok [], w)
    listGroupProjects := fun _ _ w => (.ok [], w) }

/-- A configuration with the local root `/w` and nothing else. -/
def rootConfig : Config :=
  { Url := [], Token := [], Path := "/w".toList, Groups := [], Repos := [],
    RepoIgnore := [], GroupIgnore := [] }

/-- A configuration with the local root `/w` and two explicit repositories. -/
def twoReposConfig : Config :=
  { Url := [], Token := [], Path := "/w".toList, Groups := [],
    Repos := ["git@h.com:g/a.git".toList, "git@h.com:g/b.git".toList],
    RepoIgnore := [], GroupIgnore := [] }

/-- Page `page` (counted from 1) of a server that holds `items` and gives 100 of them to
a page: the items 100(page-1) up to min(100 page, N) - 1, none beyond the end. -/
def servePage (items : List Project) (page : Nat) : List Project :=
  (items.drop (100 * (page - 1))).take 100

/-- A world whose hosting API serves the projects `items` for every group, 100 to a page;
nothing else in it succeeds. -/
def projectsWorld (items : List Project) : World Unit :=
  { run := fun _ w => (.error "exit status 1", w)
    stat := fun _ _ => false
    getwd := fun _ => .error "no working directory"
    listGroups := fun _ w => (.ok [], w)
    listSubGroups := fun _ _ w => (.ok [], w)
    listGroupProjects := fun _ page w => (.ok (servePage items page), w) }

/-- Two projects, the clone URL of the first being ignored. -/
def twoProjects : List Project :=
  [{ Path := "a".toList, PathWithNamespace := "g/a".toList,
     SSHURLToRepo := "git@h.com:g/a.git".toList },
   { Path := "b".toList, PathWithNamespace := "g/b".toList,
     SSHURLToRepo := "git@h.com:g/b.git".toList }]

/-- A configuration that ignores the repository `git@h.com:g/a.git`. -/
def ignoreRepoConfig : Config :=
  { Url := [], Token := [], Path := "/w".toList, Groups := [], Repos := [],
    RepoIgnore := ["git@h.com:g/a.git".toList], GroupIgnore := [] }

/-- Fifty subgroups `g/a`, `g/aa`, ... with the IDs 1 to 50. -/
def fiftySubGroups : List Group :=
  (List.range 50).map fun i =>
    { ID := Int.ofNat (i + 1), Name := List.replicate (i + 1) 'a',
      Path := List.replicate (i + 1) 'a',
      FullPath := 'g' :: '/' :: List.replicate (i + 1) 'a' }

/-- The subgroup `g/z`, which the server lists on the second page. -/
def lateSubGroup : Group :=
  { ID := 51, Name := "z".toList, Path := "z".toList, FullPath := "g/z".toList }

/-- A world whose hosting API lists, for a group given by its path, `fiftySubGroups` on
page 1 and `lateSubGroup` on page 2, and no subgroup for a group given by its ID. -/
def subGroupsWorld : World Unit :=
  { run := fun _ w => (.error "exit status 1", w)
    stat := fun _ _ => false
    getwd := fun _ => .error "no working directory"
    listGroups := fun _ w => (.ok [], w)
    listSubGroups := fun gid page w =>
      match gid with
      | .path _ =>
          if page = 1 then (.ok fiftySubGroups, w)
          else if page = 2 then (.ok [lateSubGroup], w)
          else (.ok [], w)
      | .id _ => (.ok [], w)
    listGroupProjects := fun _ _ w => (.ok [], w) }

/-- A configuration with the given explicit groups and ignored groups. -/
def groupsConfig (groups groupIgnore : List GoString) : Config :=
  { Url := [], Token := [], Path := "/w".toList, Groups := groups, Repos := [],
    RepoIgnore := [], GroupIgnore := groupIgnore }

/-- Outcome, number of issued events, and whether the event `e` was issued. -/
def observe {σ α : Type} (e : Event) (r : Option (Outcome α × St σ)) :
    Option (Outcome α × Nat × Bool) :=
  r.map fun x => (x.1, x.2.trace.length, decide (e ∈ x.2.trace))

/-! ## Lemmas on the matcher -/

theorem starGreedy_append (k : GoString → Caps → Option Caps) (a b : GoString) (m v : Caps)
    (ha : ∀ c ∈ a, c ≠ '\n') (h : starGreedy k b m = some v) :
    starGreedy k (a ++ b) m = some v := by
  induction a with
  | nil => simpa using h
  | cons x a ih =>
      have hx : x ≠ '\n' := ha x (List.mem_cons_self _ _)
      have ih1 := ih fun c hc => ha c (List.mem_cons_of_mem _ hc)
      simp [starGreedy, hx, ih1]

theorem starGreedy_none (k : GoString → Caps → Option Caps) (b : GoString) (m : Caps)
    (h : ∀ t, t <:+ b → k t m = none) : starGreedy k b m = none := by
  induction b with
  | nil => simpa [starGreedy] using h [] (List.suffix_refl _)
  | cons x xs ih =>
      have h1 : starGreedy k xs m = none :=
        ih fun t ht => h t (ht.trans (List.suffix_cons x xs))
      have h2 : k (x :: xs) m = none := h _ (List.suffix_refl _)
      by_cases hx : x = '\n'
      · subst hx
        simp [starGreedy, h2]
      · simp [starGreedy, hx, h1, h2]

theorem starGreedy_stop (k : GoString → Caps → Option Caps) (x : Char) (xs : GoString)
    (m : Caps) (h : ∀ t, t <:+ xs → k t m = none) :
    starGreedy k (x :: xs) m = k (x :: xs) m := by
  have h1 := starGreedy_none k xs m h
  by_cases hx : x = '\n' <;> simp [starGreedy, hx, h1]

theorem starLazy_hit (k : GoString → Caps → Option Caps) (b : GoString) (m v : Caps)
    (h : k b m = some v) : starLazy k b m = some v := by
  cases b <;> simp [starLazy, h]

theorem starLazy_append (k : GoString → Caps → Option Caps) (a b : GoString) (m : Caps)
    (ha : ∀ c ∈ a, c ≠ '\n') (hk : ∀ t, t ≠ [] → t <:+ a → k (t ++ b) m = none) :
    starLazy k (a ++ b) m = starLazy k b m := by
  induction a with
  | nil => rfl
  | cons x a ih =>
      have hx : x ≠ '\n' := ha x (List.mem_cons_self _ _)
      have h0 : k (x :: (a ++ b)) m = none := by
        simpa using hk (x :: a) (by simp) (List.suffix_refl _)
      have ih1 := ih (fun c hc => ha c (List.mem_cons_of_mem _ hc))
        (fun t ht hs => hk t ht (hs.trans (List.suffix_cons x a)))
      simp [starLazy, hx, h0, ih1]

/-- A suffix of a text without the rune `c` does not start with `c`. -/
theorem not_head_of_suffix (c : Char) (b t r : GoString) (hc : c ∉ b) (ht : t <:+ b) :
    t ≠ c :: r := by
  intro e
  subst e
  exact hc (ht.subset (List.mem_cons_self _ _))

theorem take_captured (a r : GoString) : (a ++ r).take ((a ++ r).length - r.length) = a := by
  simp

theorem matchT_chr (n : Nat) (c : Char) (ts : List Tok) (xs : GoString) (m : Caps) :
    matchT n (.chr c :: ts) (c :: xs) m = matchT n ts xs m := by
  simp [matchT]

theorem matchT_gopen (n i : Nat) (ts : List Tok) (s : GoString) (m : Caps) :
    matchT n (.gopen i :: ts) s m = matchT n ts s { m with opened := (i, s) :: m.opened } := by
  rw [matchT]

theorem matchT_bol (ts : List Tok) (s : GoString) (m : Caps) :
    matchT s.length (.bol :: ts) s m = matchT s.length ts s m := by
  simp [matchT]

theorem findFrom_of_match (n : Nat) (toks : List Tok) (s : GoString) (v : Caps)
    (h : matchT n toks s ⟨[], []⟩ = some v) : findFrom n toks s = some v := by
  cases s <;> simp [findFrom, h]

/-- A greedy `.*` that closes group `i` before the literal `c` stops at the last `c`. -/
theorem star_gclose_chr (n i : Nat) (c : Char) (ts : List Tok) (p a b : GoString)
    (m v : Caps) (hnl : ∀ x ∈ a, x ≠ '\n') (hc : c ∉ b)
    (ho : m.opened.lookup i = some (p ++ a ++ c :: b))
    (hv : matchT n ts b { m with closed := (i, p ++ a) :: m.closed } = some v) :
    matchT n (.star :: .gclose i :: .chr c :: ts) (a ++ c :: b) m = some v := by
  rw [matchT]
  apply starGreedy_append _ _ _ _ _ hnl
  rw [starGreedy_stop]
  · have e : (p ++ a ++ c :: b).take ((p ++ a ++ c :: b).length - (b.length + 1)) = p ++ a := by
      simpa using take_captured (p ++ a) (c :: b)
    simp only [matchT, ho, List.length_cons, e, if_true]
    exact hv
  · intro t ht
    cases t with
    | nil => cases h : m.opened.lookup i <;> simp [matchT, h]
    | cons y ys =>
        have hy : y ≠ c := fun e => not_head_of_suffix c b (y :: ys) ys hc ht (by rw [e])
        cases h : m.opened.lookup i <;> simp [matchT, h, hy]

/-- A greedy `.*` that closes group `i` before the literal `.git` at the end of the text
stops at the last `.git`. -/
theorem star_gclose_dotgit (n i : Nat) (ts : List Tok) (p a : GoString) (m v : Caps)
    (hnl : ∀ x ∈ a, x ≠ '\n')
    (ho : m.opened.lookup i = some (p ++ a ++ ['.', 'g', 'i', 't']))
    (hv : matchT n ts [] { m with closed := (i, p ++ a) :: m.closed } = some v) :
    matchT n (.star :: .gclose i :: .chr '.' :: .chr 'g' :: .chr 'i' :: .chr 't' :: .eol :: ts)
      (a ++ ['.', 'g', 'i', 't']) m = some v := by
  rw [matchT]
  apply starGreedy_append _ _ _ _ _ hnl
  rw [starGreedy_stop]
  · have e : (p ++ a ++ ['.', 'g', 'i', 't']).take
        ((p ++ a ++ ['.', 'g', 'i', 't']).length - (3 + 1)) = p ++ a := by
      simpa using take_captured (p ++ a) ['.', 'g', 'i', 't']
    simp only [matchT, ho, List.length_cons, List.length_nil, e, if_true]
    exact hv
  · intro t ht
    have ht1 : t = ['g', 'i', 't'] ∨ t = ['i', 't'] ∨ t = ['t'] ∨ t = [] := by
      simpa [List.suffix_cons_iff, or_assoc] using ht
    rcases ht1 with e | e | e | e <;> subst e <;>
      cases h : m.opened.lookup i <;> simp [matchT, h]

theorem compile_rexSsh : compile rexSsh = some sshToks := by decide

theorem compile_rexHttp : compile rexHttp = some httpToks := by decide

/-- The submatches of `rexSsh` on `git@<host>:<groupPath>/<repo>.git`. -/
theorem find_ssh (host gp repo : GoString)
    (hhost : ∀ c ∈ host, c ≠ ':' ∧ c ≠ '\n')
    (hgp : ∀ c ∈ gp, c ≠ ':' ∧ c ≠ '\n')
    (hrepo : ∀ c ∈ repo, c ≠ '/' ∧ c ≠ ':' ∧ c ≠ '\n') :
    FindStringSubmatch sshToks
        ('g' :: 'i' :: 't' :: '@' :: (host ++ ':' :: (gp ++ '/' :: (repo ++ ['.', 'g', 'i', 't']))))
      = ['g' :: 'i' :: 't' :: '@' :: (host ++ ':' :: (gp ++ '/' :: (repo ++ ['.', 'g', 'i', 't']))),
         host, gp, repo] := by
  set u : GoString :=
    'g' :: 'i' :: 't' :: '@' :: (host ++ ':' :: (gp ++ '/' :: (repo ++ ['.', 'g', 'i', 't'])))
    with hu
  have key : matchT u.length (Tok.gopen 0 :: sshToks ++ [Tok.gclose 0]) u ⟨[], []⟩ =
      some ⟨[(3, repo ++ ['.', 'g', 'i', 't']), (2, gp ++ '/' :: (repo ++ ['.', 'g', 'i', 't'])),
             (1, host ++ ':' :: (gp ++ '/' :: (repo ++ ['.', 'g', 'i', 't']))), (0, u)],
            [(0, u), (3, repo), (2, gp), (1, host)]⟩ := by
    simp only [sshToks, List.cons_append, List.nil_append]
    rw [matchT_gopen, matchT_bol]
    simp only [hu, matchT_chr, matchT_gopen]
    apply star_gclose_chr _ _ _ _ [] host _ _ _ (fun x hx => (hhost x hx).2)
    · simp only [List.mem_append, List.mem_cons, not_or]
      refine ⟨fun h => (hgp _ h).1 rfl, by decide, fun h => (hrepo _ h).2.1 rfl, ?_⟩
      decide
    · simp [List.lookup]
    rw [matchT_gopen]
    apply star_gclose_chr _ _ _ _ [] gp _ _ _ (fun x hx => (hgp x hx).2)
    · simp only [List.mem_append, List.mem_cons, not_or]
      refine ⟨fun h => (hrepo _ h).1 rfl, ?_⟩
      decide
    · simp [List.lookup]
    rw [matchT_gopen]
    apply star_gclose_dotgit _ _ _ [] repo _ _ (fun x hx => (hrepo x hx).2.2)
    · simp [List.lookup]
    simp [matchT, List.lookup]
  simp only [FindStringSubmatch, findFrom_of_match _ _ _ _ key]
  simp [numGroups, sshToks, List.range_succ, List.lookup]

theorem matchT_opt_hit (n : Nat) (c : Char) (ts : List Tok) (xs : GoString) (m v : Caps)
    (h : matchT n ts xs m = some v) : matchT n (.opt c :: ts) (c :: xs) m = some v := by
  simp [matchT, h]

/-- A lazy `.*?` that closes group `i` before group `j` opens on the literal `c` stops at
the first `c`. -/
theorem lazy_gclose_gopen_chr (n i j : Nat) (c : Char) (ts : List Tok) (p a b : GoString)
    (m v : Caps) (hnl : ∀ x ∈ a, x ≠ '\n') (hc : c ∉ a)
    (ho : m.opened.lookup i = some (p ++ a ++ c :: b))
    (hv : matchT n ts b
      { opened := (j, c :: b) :: m.opened, closed := (i, p ++ a) :: m.closed } = some v) :
    matchT n (.lazy :: .gclose i :: .gopen j :: .chr c :: ts) (a ++ c :: b) m = some v := by
  rw [matchT, starLazy_append _ _ _ _ hnl]
  · apply starLazy_hit
    have e : (p ++ a ++ c :: b).take ((p ++ a ++ c :: b).length - (b.length + 1)) = p ++ a := by
      simpa using take_captured (p ++ a) (c :: b)
    simp only [matchT, ho, List.length_cons, e, if_true]
    exact hv
  · intro t ht hs
    cases t with
    | nil => exact absurd rfl ht
    | cons y ys =>
        have hy : y ≠ c := fun e => hc (e ▸ hs.subset (List.mem_cons_self _ _))
        simp [matchT, ho, hy]

/-- The submatches of `rexHttp` on `https://<host>/<groupPath>/<repo>.git`: the second
group starts with the `/` that follows the host. -/
theorem find_https (host gp repo : GoString)
    (hhost : ∀ c ∈ host, c ≠ '/' ∧ c ≠ '\n')
    (hgp : ∀ c ∈ gp, c ≠ '\n')
    (hrepo : ∀ c ∈ repo, c ≠ '/' ∧ c ≠ '\n') :
    FindStringSubmatch httpToks
        ('h' :: 't' :: 't' :: 'p' :: 's' :: ':' :: '/' :: '/' ::
          (host ++ '/' :: (gp ++ '/' :: (repo ++ ['.', 'g', 'i', 't']))))
      = ['h' :: 't' :: 't' :: 'p' :: 's' :: ':' :: '/' :: '/' ::
          (host ++ '/' :: (gp ++ '/' :: (repo ++ ['.', 'g', 'i', 't']))),
         'h' :: 't' :: 't' :: 'p' :: 's' :: ':' :: '/' :: '/' :: host, '/' :: gp, repo] := by
  set u : GoString :=
    'h' :: 't' :: 't' :: 'p' :: 's' :: ':' :: '/' :: '/' ::
      (host ++ '/' :: (gp ++ '/' :: (repo ++ ['.', 'g', 'i', 't'])))
    with hu
  have key : matchT u.length (Tok.gopen 0 :: httpToks ++ [Tok.gclose 0]) u ⟨[], []⟩ =
      some ⟨[(3, repo ++ ['.', 'g', 'i', 't']), (2, '/' :: (gp ++ '/' :: (repo ++ ['.', 'g', 'i', 't']))),
             (1, u), (0, u)],
            [(0, u), (3, repo), (2, '/' :: gp),
             (1, 'h' :: 't' :: 't' :: 'p' :: 's' :: ':' :: '/' :: '/' :: host)]⟩ := by
    simp only [httpToks, List.cons_append, List.nil_append]
    rw [matchT_gopen, matchT_bol, matchT_gopen]
    simp only [hu, matchT_chr]
    apply matchT_opt_hit
    simp only [matchT_chr]
    apply lazy_gclose_gopen_chr _ _ _ _ _ ['h', 't', 't', 'p', 's', ':', '/', '/'] host _ _ _
      (fun x hx => (hhost x hx).2) (fun h => (hhost _ h).1 rfl)
    · simp [List.lookup]
    apply star_gclose_chr _ _ _ _ ['/'] gp _ _ _ hgp
    · simp only [List.mem_append, List.mem_cons, not_or]
      refine ⟨fun h => (hrepo _ h).1 rfl, ?_⟩
      decide
    · simp [List.lookup]
    rw [matchT_gopen]
    apply star_gclose_dotgit _ _ _ [] repo _ _ (fun x hx => (hrepo x hx).2)
    · simp [List.lookup]
    simp [matchT, List.lookup]
  simp only [FindStringSubmatch, findFrom_of_match _ _ _ _ key]
  simp [numGroups, httpToks, List.range_succ, List.lookup]

theorem mem_intercalate_slash (segs : List GoString) (c : Char)
    (h : c ∈ ['/'].intercalate segs) : c = '/' ∨ ∃ s ∈ segs, c ∈ s := by
  induction segs with
  | nil => simp [List.intercalate] at h
  | cons s rest ih =>
      cases rest with
      | nil =>
          simp [List.intercalate] at h
          exact Or.inr ⟨s, by simp, h⟩
      | cons s2 rest2 =>
          have e : ['/'].intercalate (s :: s2 :: rest2)
              = s ++ '/' :: ['/'].intercalate (s2 :: rest2) := by
            simp [List.intercalate, List.intersperse]
          rw [e] at h
          rcases List.mem_append.1 h with h1 | h1
          · exact Or.inr ⟨s, by simp, h1⟩
          · rcases List.mem_cons.1 h1 with h2 | h2
            · exact Or.inl h2
            · rcases ih h2 with h3 | ⟨t, ht, hct⟩
              · exact Or.inl h3
              · exact Or.inr ⟨t, List.mem_cons_of_mem _ ht, hct⟩

theorem isGitURL_false_iff (L : Lib) (s : GoString) :
    IsGitURL L s = false ↔ LacksGitMarks L s := by
  simp only [IsGitURL, LacksGitMarks, HasPrefix, HasSuffix,
    ← List.isPrefixOf_iff_prefix, ← List.isSuffixOf_iff_suffix]
  simp only [Bool.not_eq_true, Bool.and_eq_true, Bool.not_eq_eq_eq_not, Bool.not_true,
    and_assoc, ite_eq_left_iff, not_and, Bool.not_eq_false, Bool.true_eq_false, imp_false,
    Classical.not_imp]

/-- C4. For every string `s`: `IsGitURL s` is false, and `GetGitRepo s` returns the
"is not git url" error, if and only if the lower-cased `s` starts with none of `git@`,
`http://`, `https://` and does not end with `.git`; a string that has at least one of
the four is accepted by `IsGitURL`. -/
theorem not_git_url_iff (L : Lib) (s : GoString) :
    (IsGitURL L s = false ↔ LacksGitMarks L s) ∧
    (GetGitRepo L s = .error "is not git url" ↔ LacksGitMarks L s) ∧
    (("git@".toList <+: ToLower L s ∨ "http://".toList <+: ToLower L s ∨
        "https://".toList <+: ToLower L s ∨ ".git".toList <:+ ToLower L s) →
      IsGitURL L s = true) := by
  have h := isGitURL_false_iff L s
  refine ⟨h, ?_, ?_⟩
  · rw [← h]
    cases hb : IsGitURL L s
    · simp [GetGitRepo, hb]
    · simp only [GetGitRepo, hb]
      cases compile (if HasPrefix (ToLower L s) "git@".toList then rexSsh else rexHttp) with
      | none => simp
      | some re =>
          simp only [Bool.not_true, Bool.false_eq_true, if_false]
          split <;> simp
  · intro hm
    cases hb : IsGitURL L s
    · have := h.1 hb
      simp only [LacksGitMarks] at this
      tauto
    · rfl

/-- C1. For every SSH-style URL `git@<host>:<groupPath>/<repo>.git`, where host and repo
are segments and groupPath is one or more segments joined by `/`, `GetGitRepo` returns
no error and the Repo with Domain = host, GroupPath = groupPath, RepoPath = repo and
Url = the URL. -/
theorem getGitRepo_ssh (L : Lib) (hL : L.AsciiFaithful) (host repo : GoString)
    (segs : List GoString) (hhost : IsSegment host) (hrepo : IsSegment repo)
    (_hne : segs ≠ []) (hsegs : ∀ s ∈ segs, IsSegment s) :
    GetGitRepo L ("git@".toList ++ host ++ ":".toList ++ ['/'].intercalate segs ++
        "/".toList ++ repo ++ ".git".toList) =
      .ok { Url := "git@".toList ++ host ++ ":".toList ++ ['/'].intercalate segs ++
              "/".toList ++ repo ++ ".git".toList
            Domain := host
            GroupPath := ['/'].intercalate segs
            RepoPath := repo } := by
  have hg : L.toLower 'g' = 'g' := by rw [hL 'g' (by decide)]; decide
  have hi : L.toLower 'i' = 'i' := by rw [hL 'i' (by decide)]; decide
  have ht : L.toLower 't' = 't' := by rw [hL 't' (by decide)]; decide
  have ha : L.toLower '@' = '@' := by rw [hL '@' (by decide)]; decide
  have hgp : ∀ c ∈ ['/'].intercalate segs, c ≠ ':' ∧ c ≠ '\n' := by
    intro c hc
    rcases mem_intercalate_slash segs c hc with e | ⟨t, ht, hct⟩
    · subst e; decide
    · exact ((hsegs t ht).2 c hct).2
  have hf := find_ssh host (['/'].intercalate segs) repo
    (fun c hc => (hhost.2 c hc).2) hgp hrepo.2
  have e : "git@".toList ++ host ++ ":".toList ++ ['/'].intercalate segs ++
        "/".toList ++ repo ++ ".git".toList =
      'g' :: 'i' :: 't' :: '@' :: (host ++ ':' :: (['/'].intercalate segs ++
        '/' :: (repo ++ ['.', 'g', 'i', 't']))) := by
    simp
  rw [e]
  have hp : HasPrefix (ToLower L ('g' :: 'i' :: 't' :: '@' :: (host ++ ':' ::
      (['/'].intercalate segs ++ '/' :: (repo ++ ['.', 'g', 'i', 't']))))) ['g', 'i', 't', '@']
      = true := by
    simp [HasPrefix, ToLower, hg, hi, ht, ha]
  have hurl : IsGitURL L ('g' :: 'i' :: 't' :: '@' :: (host ++ ':' ::
      (['/'].intercalate segs ++ '/' :: (repo ++ ['.', 'g', 'i', 't'])))) = true := by
    simp [IsGitURL, hp]
  simp [GetGitRepo, hurl, hp, compile_rexSsh, hf]

theorem asciiLib_faithful : asciiLib.AsciiFaithful := fun _ _ => rfl

/-- Witness of C1 at `git@h.com:group/sub/repo.git`. -/
theorem getGitRepo_ssh_witness :
    GetGitRepo asciiLib ("git@".toList ++ "h.com".toList ++ ":".toList ++
        ['/'].intercalate ["group".toList, "sub".toList] ++ "/".toList ++ "repo".toList ++
        ".git".toList) =
      .ok { Url := "git@".toList ++ "h.com".toList ++ ":".toList ++
              ['/'].intercalate ["group".toList, "sub".toList] ++ "/".toList ++
              "repo".toList ++ ".git".toList
            Domain := "h.com".toList
            GroupPath := ['/'].intercalate ["group".toList, "sub".toList]
            RepoPath := "repo".toList } :=
  getGitRepo_ssh asciiLib asciiLib_faithful "h.com".toList "repo".toList
    ["group".toList, "sub".toList] (by simp [IsSegment]) (by simp [IsSegment]) (by simp)
    (by simp [IsSegment])

/-- C2, as amended. For every HTTPS URL `https://<host>/<group>/<sub>/<repo>.git`, where
host, group, sub and repo are segments, `GetGitRepo` returns no error and the Repo with
Domain = `https://<host>`, GroupPath = `/<group>/<sub>` (with the leading slash that the
second group of the pattern captures) and RepoPath = repo. -/
theorem getGitRepo_https (L : Lib) (hL : L.AsciiFaithful) (host group sub repo : GoString)
    (hhost : IsSegment host) (hgroup : IsSegment group) (hsub : IsSegment sub)
    (hrepo : IsSegment repo) :
    GetGitRepo L ("https://".toList ++ host ++ "/".toList ++ group ++ "/".toList ++ sub ++
        "/".toList ++ repo ++ ".git".toList) =
      .ok { Url := "https://".toList ++ host ++ "/".toList ++ group ++ "/".toList ++ sub ++
              "/".toList ++ repo ++ ".git".toList
            Domain := "https://".toList ++ host
            GroupPath := "/".toList ++ group ++ "/".toList ++ sub
            RepoPath := repo } := by
  have hh : L.toLower 'h' = 'h' := by rw [hL 'h' (by decide)]; decide
  have ht : L.toLower 't' = 't' := by rw [hL 't' (by decide)]; decide
  have hp : L.toLower 'p' = 'p' := by rw [hL 'p' (by decide)]; decide
  have hs : L.toLower 's' = 's' := by rw [hL 's' (by decide)]; decide
  have hc : L.toLower ':' = ':' := by rw [hL ':' (by decide)]; decide
  have hsl : L.toLower '/' = '/' := by rw [hL '/' (by decide)]; decide
  have hgp : ∀ c ∈ group ++ '/' :: sub, c ≠ '\n' := by
    intro c hc
    rcases List.mem_append.1 hc with h1 | h1
    · exact ((hgroup.2 c h1).2).2
    · rcases List.mem_cons.1 h1 with h2 | h2
      · subst h2; decide
      · exact ((hsub.2 c h2).2).2
  have hf := find_https host (group ++ '/' :: sub) repo
    (fun c hc => ⟨(hhost.2 c hc).1, (hhost.2 c hc).2.2⟩) hgp
    (fun c hc => ⟨(hrepo.2 c hc).1, (hrepo.2 c hc).2.2⟩)
  have e : "https://".toList ++ host ++ "/".toList ++ group ++ "/".toList ++ sub ++
        "/".toList ++ repo ++ ".git".toList =
      'h' :: 't' :: 't' :: 'p' :: 's' :: ':' :: '/' :: '/' ::
        (host ++ '/' :: ((group ++ '/' :: sub) ++ '/' :: (repo ++ ['.', 'g', 'i', 't']))) := by
    simp
  rw [e]
  have hp1 : HasPrefix (ToLower L ('h' :: 't' :: 't' :: 'p' :: 's' :: ':' :: '/' :: '/' ::
      (host ++ '/' :: ((group ++ '/' :: sub) ++ '/' :: (repo ++ ['.', 'g', 'i', 't'])))))
      ['g', 'i', 't', '@'] = false := by
    simp [HasPrefix, ToLower, hh, List.isPrefixOf]
  have hp2 : HasPrefix (ToLower L ('h' :: 't' :: 't' :: 'p' :: 's' :: ':' :: '/' :: '/' ::
      (host ++ '/' :: ((group ++ '/' :: sub) ++ '/' :: (repo ++ ['.', 'g', 'i', 't'])))))
      ['h', 't', 't', 'p', 's', ':', '/', '/'] = true := by
    simp [HasPrefix, ToLower, hh, ht, hp, hs, hc, hsl, List.isPrefixOf]
  generalize 'h' :: 't' :: 't' :: 'p' :: 's' :: ':' :: '/' :: '/' ::
      (host ++ '/' :: ((group ++ '/' :: sub) ++ '/' :: (repo ++ ['.', 'g', 'i', 't']))) = u
    at hf hp1 hp2 ⊢
  have hurl : IsGitURL L u = true := by
    simp [IsGitURL, hp1, hp2]
  simp [GetGitRepo, hurl, hp1, compile_rexHttp, hf]

/-- Witness of the amended C2 at `https://h.com/group/sub/repo.git`. -/
theorem getGitRepo_https_witness :
    GetGitRepo asciiLib ("https://".toList ++ "h.com".toList ++ "/".toList ++
        "group".toList ++ "/".toList ++ "sub".toList ++ "/".toList ++ "repo".toList ++
        ".git".toList) =
      .ok { Url := "https://".toList ++ "h.com".toList ++ "/".toList ++ "group".toList ++
              "/".toList ++ "sub".toList ++ "/".toList ++ "repo".toList ++ ".git".toList
            Domain := "https://".toList ++ "h.com".toList
            GroupPath := "/".toList ++ "group".toList ++ "/".toList ++ "sub".toList
            RepoPath := "repo".toList } :=
  getGitRepo_https asciiLib asciiLib_faithful "h.com".toList "group".toList "sub".toList
    "repo".toList (by simp [IsSegment]) (by simp [IsSegment]) (by simp [IsSegment])
    (by simp [IsSegment])

/-- Counterexample to C2 as stated: on `https://h.com/group/sub/repo.git` the GroupPath
is `/group/sub`, not `group/sub`. -/
theorem getGitRepo_https_groupPath_counterexample :
    IsSegment "h.com".toList ∧ IsSegment "group".toList ∧ IsSegment "sub".toList ∧
    IsSegment "repo".toList ∧
    GetGitRepo asciiLib "https://h.com/group/sub/repo.git".toList =
      .ok { Url := "https://h.com/group/sub/repo.git".toList
            Domain := "https://h.com".toList
            GroupPath := "/group/sub".toList
            RepoPath := "repo".toList } ∧
    GetGitRepo asciiLib "https://h.com/group/sub/repo.git".toList ≠
      .ok { Url := "https://h.com/group/sub/repo.git".toList
            Domain := "https://h.com".toList
            GroupPath := "group/sub".toList
            RepoPath := "repo".toList } := by
  refine ⟨by simp [IsSegment], by simp [IsSegment], by simp [IsSegment], by simp [IsSegment],
    by decide, by decide⟩

/-- C3, the code at the failing inputs: a URL that passes `IsGitURL` and matches neither
pattern makes `GetGitRepo` index the nil slice of matches, a run-time panic. -/
theorem getGitRepo_no_match_crash :
    (IsGitURL asciiLib "https://host/repo.git".toList = true ∧
      FindStringSubmatch httpToks "https://host/repo.git".toList = [] ∧
      GetGitRepo asciiLib "https://host/repo.git".toList = .crash) ∧
    (IsGitURL asciiLib "repo.git".toList = true ∧
      GetGitRepo asciiLib "repo.git".toList = .crash) ∧
    (IsGitURL asciiLib "https://host/group/repo".toList = true ∧
      GetGitRepo asciiLib "https://host/group/repo".toList = .crash) := by
  decide

theorem getGitRepo_url (L : Lib) (url : GoString) (repo : Repo)
    (h : GetGitRepo L url = .ok repo) : repo.Url = url := by
  unfold GetGitRepo at h
  split at h
  · simp at h
  · simp only at h
    split at h
    · simp at h
    · split at h
      · simp only [Outcome.ok.injEq] at h
        rw [← h]
      · simp at h

theorem syncsExisting_aux {σ : Type} (W : World σ) (workPath : GoString) (st : St σ)
    (out1 out2 : GoString) (w1 w2 : σ) (res : Outcome Unit × St σ)
    (hcur : W.run (.revParse workPath) st.world = (.ok out1, w1))
    (hrem : W.run (.lsRemote (TrimSpace out1) workPath) w1 = (.ok out2, w2))
    (hres : res =
      match ExistsBranch W workPath st with
      | (.error err, st1) => (.error err, st1)
      | (.ok (existsBranch, _), st1) =>
          if !existsBranch then
            match GitSwitchBranch W workPath "master".toList st1 with
            | (some err, st2) => (.error err, st2)
            | (none, st2) => (.ok (), GitPull W workPath st2)
          else (.ok (), GitPull W workPath st1)) :
    SyncsExisting W workPath (TrimSpace out1) (TrimSpace out2) w2 st res := by
  subst hres
  by_cases hs : ('/' :: TrimSpace out1) <:+ TrimSpace out2
  · have hb : HasSuffix (TrimSpace out2) ('/' :: TrimSpace out1) = true := by
      simpa [HasSuffix] using hs
    simp [SyncsExisting, ExistsBranch, GetCurrentBranch, GetRemoteBranch,
      GitCommandRunOutput, hcur, hrem, hb, hs, GitPull, GitCommandRun, St.emit]
    cases W.run (.pull workPath) w2 with
    | mk r w3 => cases r <;> simp
  · have hb : HasSuffix (TrimSpace out2) ('/' :: TrimSpace out1) = false := by
      rw [HasSuffix, Bool.eq_false_iff, ne_eq, List.isSuffixOf_iff_suffix]
      exact hs
    cases hco : W.run (.checkout workPath ['m', 'a', 's', 't', 'e', 'r']) w2 with
    | mk r w3 =>
      cases r with
      | error err =>
          simp [SyncsExisting, ExistsBranch, GetCurrentBranch, GetRemoteBranch,
            GitCommandRunOutput, hcur, hrem, hb, hs, GitSwitchBranch, GitCommandRun,
            St.emit, hco]
      | ok out =>
          cases hpl : W.run (.pull workPath) w3 with
          | mk r2 w4 =>
            cases r2 <;>
            simp [SyncsExisting, ExistsBranch, GetCurrentBranch, GetRemoteBranch,
              GitCommandRunOutput, hcur, hrem, hb, hs, GitSwitchBranch, GitCommandRun,
              St.emit, hco, GitPull, hpl]

/-- C5. For a repository whose local path is a git working copy and whose branch queries
succeed, `FetchRepo` and `FetchProject` issue `git checkout master` if and only if the
remote listing of the current branch does not end with `/` followed by the current
branch; with the branch on the remote the only command after the queries is a pull; without
it the checkout precedes any pull and a failed checkout returns the error and no pull. -/
theorem sync_existing_checkout_iff {σ : Type} (L : Lib) (W : World σ) (config : Config)
    (root workPath : GoString) (st : St σ) (out1 out2 : GoString) (w1 w2 : σ)
    (hroot : GetWorkPath W config st = some root)
    (hgit : IsGitRepo L W workPath st = true)
    (hcur : W.run (.revParse workPath) st.world = (.ok out1, w1))
    (hrem : W.run (.lsRemote (TrimSpace out1) workPath) w1 = (.ok out2, w2)) :
    (∀ url repo, GetGitRepo L url = .ok repo →
      L.join [root, repo.GroupPath, repo.RepoPath] = workPath →
      SyncsExisting W workPath (TrimSpace out1) (TrimSpace out2) w2 st
        (FetchRepo L W config url st)) ∧
    (∀ project : Project, L.join [root, project.PathWithNamespace] = workPath →
      SyncsExisting W workPath (TrimSpace out1) (TrimSpace out2) w2 st
        (FetchProject L W config project st)) := by
  constructor
  · intro url repo hparse hjoin
    apply syncsExisting_aux W workPath st out1 out2 w1 w2 _ hcur hrem
    simp only [FetchRepo, hparse, hroot, hjoin, hgit, if_true]
  · intro project hjoin
    apply syncsExisting_aux W workPath st out1 out2 w1 w2 _ hcur hrem
    simp only [FetchProject, hroot, hjoin, hgit, if_true]

/-- Witness of C5: the working copy `/w/group/repo` is on branch `dev`, which the
remote does not have, and the checkout of `master` fails. -/
theorem sync_existing_checkout_iff_witness :
    SyncsExisting (scriptedWorld true "dev\n".toList [] false true) "/w/group/repo".toList
        "dev".toList [] () ⟨(), []⟩
        (FetchRepo asciiLib (scriptedWorld true "dev\n".toList [] false true) rootConfig
          "git@h.com:group/repo.git".toList ⟨(), []⟩) ∧
    SyncsExisting (scriptedWorld true "dev\n".toList [] false true) "/w/group/repo".toList
        "dev".toList [] () ⟨(), []⟩
        (FetchProject asciiLib (scriptedWorld true "dev\n".toList [] false true) rootConfig
          { Path := "repo".toList, PathWithNamespace := "group/repo".toList,
            SSHURLToRepo := "git@h.com:group/repo.git".toList } ⟨(), []⟩) :=
  have h := sync_existing_checkout_iff asciiLib
    (scriptedWorld true "dev\n".toList [] false true) rootConfig "/w".toList
    "/w/group/repo".toList ⟨(), []⟩ "dev\n".toList [] () () (by decide) (by decide)
    rfl rfl
  ⟨h.1 "git@h.com:group/repo.git".toList
      { Url := "git@h.com:group/repo.git".toList, Domain := "h.com".toList,
        GroupPath := "group".toList, RepoPath := "repo".toList } (by decide) (by decide),
    h.2 { Path := "repo".toList, PathWithNamespace := "group/repo".toList,
          SSHURLToRepo := "git@h.com:group/repo.git".toList } (by decide)⟩

/-- C6. For a repository whose local path has no `.git` (`IsGitRepo` is false),
`FetchRepo` and `FetchProject` issue exactly one command, the clone of the remote URL
into that path, and return nil, whatever the clone answers. -/
theorem sync_missing_clones_once {σ : Type} (L : Lib) (W : World σ) (config : Config)
    (root workPath : GoString) (st : St σ)
    (hroot : GetWorkPath W config st = some root)
    (hgit : IsGitRepo L W workPath st = false) :
    (∀ url repo, GetGitRepo L url = .ok repo →
      L.join [root, repo.GroupPath, repo.RepoPath] = workPath →
      (FetchRepo L W config url st).1 = .ok () ∧
      (FetchRepo L W config url st).2.trace = st.trace ++ [.git (.clone url workPath)]) ∧
    (∀ project : Project, L.join [root, project.PathWithNamespace] = workPath →
      (FetchProject L W config project st).1 = .ok () ∧
      (FetchProject L W config project st).2.trace =
        st.trace ++ [.git (.clone project.SSHURLToRepo workPath)]) := by
  constructor
  · intro url repo hparse hjoin
    have hurl := getGitRepo_url L url repo hparse
    simp only [FetchRepo, hparse, hroot, hjoin, hgit, GitClone, GitCommandRun, hurl]
    cases W.run (.clone url workPath) st.world with
    | mk r w => cases r <;> simp [St.emit]
  · intro project hjoin
    simp only [FetchProject, hroot, hjoin, hgit, GitClone, GitCommandRun]
    cases W.run (.clone project.SSHURLToRepo workPath) st.world with
    | mk r w => cases r <;> simp [St.emit]

/-- Witness of C6: nothing is at `/w/group/repo` and the clone fails. -/
theorem sync_missing_clones_once_witness :
    ((FetchRepo asciiLib (scriptedWorld false [] [] true false) rootConfig
        "git@h.com:group/repo.git".toList ⟨(), []⟩).1 = .ok () ∧
      (FetchRepo asciiLib (scriptedWorld false [] [] true false) rootConfig
        "git@h.com:group/repo.git".toList ⟨(), []⟩).2.trace =
        [] ++ [.git (.clone "git@h.com:group/repo.git".toList "/w/group/repo".toList)]) ∧
    ((FetchProject asciiLib (scriptedWorld false [] [] true false) rootConfig
        { Path := "repo".toList, PathWithNamespace := "group/repo".toList,
          SSHURLToRepo := "git@h.com:group/repo.git".toList } ⟨(), []⟩).1 = .ok () ∧
      (FetchProject asciiLib (scriptedWorld false [] [] true false) rootConfig
        { Path := "repo".toList, PathWithNamespace := "group/repo".toList,
          SSHURLToRepo := "git@h.com:group/repo.git".toList } ⟨(), []⟩).2.trace =
        [] ++ [.git (.clone "git@h.com:group/repo.git".toList "/w/group/repo".toList)]) :=
  have h := sync_missing_clones_once asciiLib (scriptedWorld false [] [] true false)
    rootConfig "/w".toList "/w/group/repo".toList ⟨(), []⟩ (by decide) (by decide)
  ⟨h.1 "git@h.com:group/repo.git".toList
      { Url := "git@h.com:group/repo.git".toList, Domain := "h.com".toList,
        GroupPath := "group".toList, RepoPath := "repo".toList } (by decide) (by decide),
    h.2 { Path := "repo".toList, PathWithNamespace := "group/repo".toList,
          SSHURLToRepo := "git@h.com:group/repo.git".toList } (by decide)⟩

/-- Counterexample to C7 as stated: with two configured URLs and every clone failing, the
clone of the first URL fails and `main` still parses and clones the second. -/
theorem clone_failure_not_fatal_counterexample :
    ((scriptedWorld false [] [] true false).run
        (.clone "git@h.com:g/a.git".toList "/w/g/a".toList) ()).1 = .error "exit status 128" ∧
    main asciiLib (scriptedWorld false [] [] true false) twoReposConfig false true false 0
        ⟨(), []⟩ =
      some (.ok (), ⟨(), [.git (.clone "git@h.com:g/a.git".toList "/w/g/a".toList),
                          .git (.clone "git@h.com:g/b.git".toList "/w/g/b".toList)]⟩) := by
  constructor
  · rfl
  · decide

theorem fetchRepos_append {σ : Type} (L : Lib) (W : World σ) (config : Config)
    (pre rest : List GoString) (st st1 : St σ)
    (hpre : fetchRepos L W config pre st = (.ok (), st1)) :
    fetchRepos L W config (pre ++ rest) st = fetchRepos L W config rest st1 := by
  induction pre generalizing st with
  | nil =>
      simp only [fetchRepos, Prod.mk.injEq, true_and] at hpre
      simp [hpre]
  | cons u pre ih =>
      simp only [List.cons_append, fetchRepos] at hpre ⊢
      cases hu : FetchRepo L W config u st with
      | mk r s1 =>
        cases r with
        | ok a =>
            simp only [hu] at hpre ⊢
            exact ih s1 hpre
        | error e => simp [hu] at hpre
        | crash => simp [hu] at hpre

/-- C7, as amended. In the explicit-repo-list path of `main`, an error returned by
`FetchRepo` is fatal to the list: if the URLs before position k were synced and
`FetchRepo` of the k-th URL returns an error, the loop ends in the state that call left,
so no later URL is parsed or synced, and `main` returns there.  A clone failure is not
such an error: when the k-th URL has no working copy, `FetchRepo` returns nil whatever
the clone answers and the loop goes on with the URLs after position k. -/
theorem repo_list_aborts_on_fetch_error {σ : Type} (L : Lib) (W : World σ)
    (config : Config) (pre post : List GoString) (u : GoString) (st st1 : St σ)
    (hpre : fetchRepos L W config pre st = (.ok (), st1)) :
    (∀ err st2, FetchRepo L W config u st1 = (.error err, st2) →
      fetchRepos L W config (pre ++ u :: post) st = (.error err, st2) ∧
      (config.Repos = pre ++ u :: post →
        ∀ hasClient fuel, main L W config false true hasClient fuel st = some (.ok (), st2))) ∧
    (∀ repo root, GetGitRepo L u = .ok repo → GetWorkPath W config st1 = some root →
      IsGitRepo L W (L.join [root, repo.GroupPath, repo.RepoPath]) st1 = false →
      fetchRepos L W config (pre ++ u :: post) st =
        fetchRepos L W config post
          (GitClone W u (L.join [root, repo.GroupPath, repo.RepoPath]) st1)) := by
  have happ := fetchRepos_append L W config pre (u :: post) st st1 hpre
  constructor
  · intro err st2 hu
    have h1 : fetchRepos L W config (pre ++ u :: post) st = (.error err, st2) := by
      rw [happ]
      simp [fetchRepos, hu]
    refine ⟨h1, ?_⟩
    intro hrepos hasClient fuel
    simp [main, hrepos, h1]
  · intro repo root hparse hroot hgit
    have hurl := getGitRepo_url L u repo hparse
    rw [happ]
    simp [fetchRepos, FetchRepo, hparse, hroot, hgit, hurl]

/-- Witness of the amended C7: the second of three URLs is not a git URL, the first and
the third have no working copy and every clone fails. -/
theorem repo_list_aborts_on_fetch_error_witness :
    (fetchRepos asciiLib (scriptedWorld false [] [] true false) rootConfig
        (["git@h.com:g/a.git".toList] ++ "nonsense".toList :: ["git@h.com:g/b.git".toList])
        ⟨(), []⟩ =
      (.error "is not git url",
        ⟨(), [.git (.clone "git@h.com:g/a.git".toList "/w/g/a".toList)]⟩)) ∧
    (fetchRepos asciiLib (scriptedWorld false [] [] true false) rootConfig
        ([] ++ "git@h.com:g/a.git".toList :: ["git@h.com:g/b.git".toList]) ⟨(), []⟩ =
      fetchRepos asciiLib (scriptedWorld false [] [] true false) rootConfig
        ["git@h.com:g/b.git".toList]
        (GitClone (scriptedWorld false [] [] true false) "git@h.com:g/a.git".toList
          (asciiLib.join ["/w".toList, "g".toList, "a".toList]) ⟨(), []⟩)) :=
  ⟨((repo_list_aborts_on_fetch_error asciiLib (scriptedWorld false [] [] true false)
      rootConfig ["git@h.com:g/a.git".toList] ["git@h.com:g/b.git".toList]
      "nonsense".toList ⟨(), []⟩
      ⟨(), [.git (.clone "git@h.com:g/a.git".toList "/w/g/a".toList)]⟩ (by decide)).1
      "is not git url" _ (by decide)).1,
   (repo_list_aborts_on_fetch_error asciiLib (scriptedWorld false [] [] true false)
      rootConfig [] ["git@h.com:g/b.git".toList] "git@h.com:g/a.git".toList ⟨(), []⟩
      ⟨(), []⟩ (by decide)).2
      { Url := "git@h.com:g/a.git".toList, Domain := "h.com".toList,
        GroupPath := "g".toList, RepoPath := "a".toList } "/w".toList (by decide)
      (by decide) (by decide)⟩

theorem filterProject_eq_filter (repos : List Project) (f : Project → Bool) :
    filterProject repos f = repos.filter f := by
  have h : ∀ acc : List Project,
      repos.foldl (fun result r => if f r then result ++ [r] else result) acc =
        acc ++ repos.filter f := by
    induction repos with
    | nil => intro acc; simp
    | cons r rest ih =>
        intro acc
        by_cases hr : f r = true <;> simp [List.foldl, ih, hr, List.filter]
  simpa [filterProject] using h []

theorem filterGroup_eq_filter (repos : List Group) (f : Group → Bool) :
    filterGroup repos f = repos.filter f := by
  have h : ∀ acc : List Group,
      repos.foldl (fun result r => if f r then result ++ [r] else result) acc =
        acc ++ repos.filter f := by
    induction repos with
    | nil => intro acc; simp
    | cons r rest ih =>
        intro acc
        by_cases hr : f r = true <;> simp [List.foldl, ih, hr, List.filter]
  simpa [filterGroup] using h []

theorem contains_iff_mem (s : List GoString) (e : GoString) : contains s e = true ↔ e ∈ s := by
  induction s with
  | nil => simp [contains]
  | cons v s ih =>
      by_cases hv : v = e
      · simp [contains, hv]
      · have hv2 : ¬ e = v := fun h => hv h.symm
        simp [contains, hv, hv2, ih]

/-- The loop of `GetProjectsByGroup` against a server that still has `rest` to give from
page `page` on: with `rest.length / 100 + 2` units of fuel it returns all of `rest`. -/
theorem projectsLoop_complete {σ : Type} (W : World σ) (gid : Gid) (n : Nat) :
    ∀ (rest acc : List Project) (page : Nat) (st : St σ), rest.length / 100 = n →
      (∀ j w, (W.listGroupProjects gid (page + j) w).1 = .ok ((rest.drop (100 * j)).take 100)) →
      ∃ st1 k, projectsLoop W (n + 2) gid page acc st = some (.ok (acc ++ rest), st1) ∧
        k ≤ n + 2 ∧
        st1.trace = st.trace ++
          (List.range' page k).map fun q => Event.api (.listGroupProjects gid q) := by
  induction n with
  | zero =>
      intro rest acc page st hlen hserve
      have hlt : rest.length < 100 := by omega
      have h0 := hserve 0 st.world
      have h1 := hserve 1 (W.listGroupProjects gid page st.world).2
      simp only [Nat.mul_zero, List.drop_zero, Nat.add_zero] at h0
      rw [List.take_of_length_le (by omega)] at h0
      have hd : (rest.drop (100 * 1)).take 100 = [] := by
        rw [List.drop_eq_nil_of_le (by omega)]; rfl
      rw [hd] at h1
      cases hr : W.listGroupProjects gid page st.world with
      | mk r w =>
        rw [hr] at h0 h1
        simp only at h0 h1
        subst h0
        by_cases h50 : rest.length < 50
        · refine ⟨st.emit (.api (.listGroupProjects gid page)) w, 1, ?_, by omega, ?_⟩
          · simp only [projectsLoop, hr, h50, if_true]
          · simp [St.emit, List.range']
        · cases hr2 : W.listGroupProjects gid (page + 1) w with
          | mk r2 w2 =>
            rw [hr2] at h1
            simp only at h1
            subst h1
            refine ⟨(st.emit (.api (.listGroupProjects gid page)) w).emit
              (.api (.listGroupProjects gid (page + 1))) w2, 2, ?_, by omega, ?_⟩
            · simp only [projectsLoop, hr, h50, if_false, St.emit, hr2, List.length_nil,
                Nat.zero_lt_succ, if_true, List.append_nil]
            · simp [St.emit, List.range']
  | succ n ih =>
      intro rest acc page st hlen hserve
      have hge : 100 ≤ rest.length := by omega
      have h0 := hserve 0 st.world
      simp only [Nat.mul_zero, List.drop_zero, Nat.add_zero] at h0
      cases hr : W.listGroupProjects gid page st.world with
      | mk r w =>
        rw [hr] at h0
        simp only at h0
        subst h0
        have hl : (rest.take 100).length = 100 := by
          rw [List.length_take]; omega
        obtain ⟨st1, k, hloop, hk, htr⟩ := ih (rest.drop 100) (acc ++ rest.take 100)
          (page + 1) (st.emit (.api (.listGroupProjects gid page)) w)
          (by rw [List.length_drop]; omega)
          (by
            intro j w1
            have := hserve (j + 1) w1
            rw [show page + 1 + j = page + (j + 1) by omega, this, List.drop_drop]
            rw [show 100 * (j + 1) = 100 + 100 * j by omega])
        refine ⟨st1, k + 1, ?_, by omega, ?_⟩
        · rw [show n + 1 + 2 = (n + 2) + 1 by omega]
          rw [projectsLoop]
          simp only [hr, hl]
          simp only [show ¬ (100 < 50) by omega, if_false]
          rw [hloop]
          simp [List.append_assoc]
        · rw [htr]
          simp [St.emit, List.range'_succ]

/-- C10. For a group with N projects served 100 to a page, in order, with an empty page
beyond the end, `GetProjectsByGroup` ends after at most N/100 + 2 requests, for the pages
1, 2, ... in turn, and returns, in server order, exactly the projects whose SSH clone URL
is not an entry of `config.RepoIgnore`. -/
theorem projects_listing_complete {σ : Type} (W : World σ) (config : Config) (gid : Gid)
    (items : List Project) (st : St σ)
    (hserve : ∀ page w, 1 ≤ page →
      (W.listGroupProjects gid page w).1 = .ok (servePage items page)) :
    ∃ st1 k, GetProjectsByGroup W config (items.length / 100 + 2) gid st =
        some (.ok (items.filter fun r => decide (r.SSHURLToRepo ∉ config.RepoIgnore)), st1) ∧
      k ≤ items.length / 100 + 2 ∧
      st1.trace = st.trace ++
        (List.range' 1 k).map fun q => Event.api (.listGroupProjects gid q) := by
  obtain ⟨st1, k, hloop, hk, htr⟩ :=
    projectsLoop_complete W gid (items.length / 100) items [] 1 st rfl
      (by
        intro j w
        rw [hserve (1 + j) w (by omega), servePage, show 1 + j - 1 = j by omega])
  refine ⟨st1, k, ?_, hk, htr⟩
  simp only [GetProjectsByGroup, hloop, List.nil_append]
  have hf : (fun r : Project => !contains config.RepoIgnore r.SSHURLToRepo) =
      fun r => decide (r.SSHURLToRepo ∉ config.RepoIgnore) := by
    funext r
    by_cases hm : r.SSHURLToRepo ∈ config.RepoIgnore
    · simp [hm, (contains_iff_mem _ _).2 hm]
    · have : contains config.RepoIgnore r.SSHURLToRepo = false := by
        rw [Bool.eq_false_iff, ne_eq, contains_iff_mem]; exact hm
      simp [hm, this]
  by_cases hlen : config.RepoIgnore.length > 0
  · simp only [hlen, if_true, filterProject_eq_filter, hf]
  · have hnil : config.RepoIgnore = [] := by
      cases h : config.RepoIgnore with
      | nil => rfl
      | cons a b => simp [h] at hlen
    simp [hlen, hnil]

/-- Witness of C10 on a group with two projects. -/
theorem projects_listing_complete_witness :
    ∃ st1 k, GetProjectsByGroup (projectsWorld twoProjects) ignoreRepoConfig
        (twoProjects.length / 100 + 2) (.path "g".toList) ⟨(), []⟩ =
        some (.ok (twoProjects.filter fun r =>
          decide (r.SSHURLToRepo ∉ ignoreRepoConfig.RepoIgnore)), st1) ∧
      k ≤ twoProjects.length / 100 + 2 ∧
      st1.trace = [] ++
        (List.range' 1 k).map fun q => Event.api (.listGroupProjects (.path "g".toList) q) :=
  projects_listing_complete (projectsWorld twoProjects) ignoreRepoConfig (.path "g".toList)
    twoProjects ⟨(), []⟩ (fun _ _ _ => rfl)

/-- C9, the code at the failing input: page 1 of the subgroups of `g` has 50 items as the
API returns it, one of them ignored; `GetSubGroups` compares the 49 that are left with 50,
never requests page 2 and loses `g/z`.  With an empty ignore list the same pages make it
request page 2. -/
theorem getSubGroups_stops_on_filtered_page :
    fiftySubGroups.length = 50 ∧
    observe (.api (.listSubGroups (.path "g".toList) 2))
        (GetSubGroups subGroupsWorld (groupsConfig [] ["g/a".toList]) 3 (.path "g".toList)
          ⟨(), []⟩) =
      some (.ok fiftySubGroups.tail, 50, false) ∧
    observe (.api (.listSubGroups (.path "g".toList) 2))
        (GetSubGroups subGroupsWorld (groupsConfig [] []) 3 (.path "g".toList) ⟨(), []⟩) =
      some (.ok (fiftySubGroups ++ [lateSubGroup]), 53, true) := by
  refine ⟨by decide, by decide, by decide⟩

/-- C8, the code at the failing input: the group `a` is named in `config.Groups` and in
`config.GroupIgnore`; `GetAllGroup` returns its placeholder, since the groups of
`GetConfigGroups` are returned before `filterGroups` is reached. -/
theorem getAllGroup_returns_ignored_placeholder :
    contains (groupsConfig ["a".toList] ["a".toList]).GroupIgnore "a".toList = true ∧
    GetAllGroup (scriptedWorld false [] [] true true)
        (groupsConfig ["a".toList] ["a".toList]) 1 ⟨(), []⟩ =
      some (.ok [{ ID := 0, Name := "a".toList, Path := "a".toList, FullPath := "a".toList }],
        ⟨(), [.api (.listSubGroups (.path "a".toList) 1)]⟩) := by
  refine ⟨by decide, by decide⟩

/-- The part of C8 that the code keeps: `filterGroups` removes exactly the groups whose
own FullPath is an entry of `config.GroupIgnore`. -/
theorem mem_filterGroups (config : Config) (gro : List Group) (g : Group) :
    g ∈ filterGroups config gro ↔ g ∈ gro ∧ g.FullPath ∉ config.GroupIgnore := by
  unfold filterGroups
  by_cases hlen : config.GroupIgnore.length > 0
  · simp only [hlen, if_true, filterGroup_eq_filter, List.mem_filter, Bool.not_eq_true',
      ← Bool.not_eq_true, contains_iff_mem]
  · have hnil : config.GroupIgnore = [] := by
      cases h : config.GroupIgnore with
      | nil => rfl
      | cons a b => simp [h] at hlen
    simp [hlen, hnil]

/-- The part of C8 that the code keeps: when no group is configured, no group returned by
`GetAllGroup` has a FullPath in `config.GroupIgnore`. -/
theorem getAllGroup_listing_excludes_ignored {σ : Type} (W : World σ) (config : Config)
    (fuel : Nat) (st st1 : St σ) (groups : List Group) (hcfg : config.Groups = [])
    (h : GetAllGroup W config fuel st = some (.ok groups, st1)) :
    ∀ g ∈ groups, g.FullPath ∉ config.GroupIgnore := by
  simp only [GetAllGroup, GetConfigGroups, hcfg, List.length_nil, gt_iff_lt, lt_self_iff_false,
    if_false, Bool.false_eq_true] at h
  cases hl : allGroupsLoop W config fuel 1 [] st with
  | none => simp [hl] at h
  | some r =>
      rcases r with ⟨r, s2⟩
      cases r with
      | ok gro =>
          simp only [hl, Option.some.injEq, Prod.mk.injEq, Outcome.ok.injEq] at h
          intro g hg
          rw [← h.1] at hg
          exact ((mem_filterGroups config gro g).1 hg).2
      | error e => simp [hl] at h
      | crash => simp [hl] at h

end Agit
